import Mathlib

/-!
# Verification of the grod launcher core

Shallow embedding of the flag store, launch latch, kill logic, URL
resolution race and transport connect discipline of the `launcher` and
`cdp` packages, together with proofs of the specified properties.

Go values are modelled as follows: a Go `[]string` that may be `nil` is an
`Option (List String)` (`none` is the nil slice, `some []` a non-nil empty
slice — the two behave differently in `FormatArgs`); the Go
`map[flags.Flag][]string` is an association list whose operations keep keys
unique, matching map semantics (iteration order of a Go map is arbitrary,
but every result proved below is insensitive to entry order because
`FormatArgs` sorts its final output and the map operations address single
keys).  A Go function that can panic returns an `Option`, `none` marking
the panic.
-/

set_option autoImplicit false

namespace Grod

/-- A flag's stored value: `none` models a nil Go slice (a value-less,
boolean flag), `some vs` a non-nil slice holding `vs`. -/
abbrev FlagValues := Option (List String)

/-- The launcher's `Flags map[flags.Flag][]string` field, as an association
list from flag name to stored values. -/
abbrev Flags := List (String × FlagValues)

/-- Modelled from the spec: the designated positional-arguments flag of the
external `flags` package (not under the sources).  The source's `StartURL`
sets it via `l.Set("", u)`, so its name is the empty string. -/
def argumentsFlag : String := ""

/-- Modelled from the spec: the working-data-directory flag of the external
`flags` package (not under the sources); the spec calls it the
user-data-dir flag. -/
def userDataDirFlag : String := "user-data-dir"

/-- Modelled from the spec: flag names are case/format-normalized before
storage (the external `flags` package is not under the sources):
leading dashes are stripped and letters are lowercased. -/
def NormalizeFlag (s : String) : String :=
  String.mk ((s.toList.dropWhile (· = '-')).map Char.toLower)

/-- `strings.HasPrefix(string(k), "rod-")`: the internal-bookkeeping flags
excluded from `FormatArgs`. -/
def isRodFlag (k : String) : Bool :=
  List.isPrefixOf "rod-".toList k.toList

/-- First entry of the association list with the given key, mirroring a Go
map read with comma-ok. -/
def lookupFlag (fl : Flags) (k : String) : Option FlagValues :=
  match fl with
  | [] => none
  | (k', v) :: rest => if k' = k then some v else lookupFlag rest k

/-- Remove every entry with the given key (a Go map holds at most one). -/
def eraseFlag (fl : Flags) (k : String) : Flags :=
  match fl with
  | [] => []
  | (k', v) :: rest =>
      if k' = k then eraseFlag rest k else (k', v) :: eraseFlag rest k

/-- `Launcher.Set`: store the values under the normalized name
(`l.Flags[name.NormalizeFlag()] = values`).  The name-validity check of
the external `flags` package is not under the sources and is not
modelled. -/
def Set (fl : Flags) (name : String) (values : FlagValues) : Flags :=
  eraseFlag fl (NormalizeFlag name) ++ [(NormalizeFlag name, values)]

/-- `Launcher.GetFlags`: `flag, has := l.Flags[name.NormalizeFlag()]`. -/
def GetFlags (fl : Flags) (name : String) : Option FlagValues :=
  lookupFlag fl (NormalizeFlag name)

/-- `Launcher.Has`. -/
def Has (fl : Flags) (name : String) : Bool :=
  (GetFlags fl name).isSome

/-- `Launcher.Get`: `if list, has := l.GetFlags(name); has { return list[0] };
return ""`.  The indexing `list[0]` panics when the stored slice is nil or
empty; the panic is modelled as `none`.  A successful return is `some`. -/
def Get (fl : Flags) (name : String) : Option String :=
  match GetFlags fl name with
  | some vs => (vs.getD []).head?
  | none => some ""

/-- `Launcher.Delete`: `delete(l.Flags, name.NormalizeFlag())`. -/
def Delete (fl : Flags) (name : String) : Flags :=
  eraseFlag fl (NormalizeFlag name)

/-- Go `append(cur, values...)` on a possibly-nil slice: appending nothing
to a nil slice leaves it nil; otherwise the result is non-nil. -/
def goAppend (cur : FlagValues) (values : List String) : FlagValues :=
  match cur, values with
  | none, [] => none
  | none, vs => some vs
  | some l, vs => some (l ++ vs)

/-- `Launcher.Append`: read the existing list (`[]string{}` when absent),
append the new values, and `Set` the result. -/
def Append (fl : Flags) (name : String) (values : List String) : Flags :=
  let cur : FlagValues :=
    match GetFlags fl name with
    | some v => v
    | none => some []
  Set fl name (goAppend cur values)

/-- Number of entries stored under a key. -/
def countKey (fl : Flags) (k : String) : Nat :=
  (fl.filter (fun e => e.1 = k)).length

@[simp] theorem lookupFlag_nil (k : String) : lookupFlag [] k = none := rfl

@[simp] theorem lookupFlag_cons (k k' : String) (v : FlagValues) (rest : Flags) :
    lookupFlag ((k', v) :: rest) k =
      if k' = k then some v else lookupFlag rest k := rfl

@[simp] theorem eraseFlag_nil (k : String) : eraseFlag [] k = [] := rfl

theorem lookupFlag_eraseFlag_self (fl : Flags) (k : String) :
    lookupFlag (eraseFlag fl k) k = none := by
  induction fl with
  | nil => simp [eraseFlag]
  | cons e rest ih =>
      obtain ⟨k', v⟩ := e
      by_cases h : k' = k <;> simp [eraseFlag, h, ih]

theorem lookupFlag_append (fl fl' : Flags) (k : String) :
    lookupFlag (fl ++ fl') k =
      match lookupFlag fl k with
      | some v => some v
      | none => lookupFlag fl' k := by
  induction fl with
  | nil => simp
  | cons e rest ih =>
      obtain ⟨k', v⟩ := e
      by_cases h : k' = k <;> simp [h, ih]

theorem lookupFlag_Set_self (fl : Flags) (name : String) (v : FlagValues) :
    lookupFlag (Set fl name v) (NormalizeFlag name) = some v := by
  simp [Set, lookupFlag_append, lookupFlag_eraseFlag_self]

theorem filter_eraseFlag_self (fl : Flags) (k : String) :
    (eraseFlag fl k).filter (fun e => e.1 = k) = [] := by
  induction fl with
  | nil => simp
  | cons e rest ih =>
      obtain ⟨k', v⟩ := e
      by_cases h : k' = k <;> simp [eraseFlag, h, ih]

theorem countKey_Set_self (fl : Flags) (name : String) (v : FlagValues) :
    countKey (Set fl name v) (NormalizeFlag name) = 1 := by
  simp [countKey, Set, List.filter_append, filter_eraseFlag_self]

/-! ## Lexicographic string order and `sort.Strings`

Go's `sort.Strings` sorts ascending under byte-wise comparison; on UTF-8
encoded strings byte order coincides with code-point order, which is what
`strListLe` computes.  `sortStrings` is an insertion sort — for strings the
sorted permutation is unique, so any correct sorting algorithm is an
equivalent model. -/

/-- Code-point-wise lexicographic `≤` on character lists. -/
def strListLe : List Char → List Char → Bool
  | [], _ => true
  | _ :: _, [] => false
  | a :: as, b :: bs =>
      if a.toNat < b.toNat then true
      else if b.toNat < a.toNat then false
      else strListLe as bs

/-- Lexicographic `≤` on strings. -/
def strLe (s t : String) : Bool := strListLe s.toList t.toList

/-- Insert a string into a sorted list, keeping it sorted. -/
def insertSorted (s : String) : List String → List String
  | [] => [s]
  | t :: ts => if strLe s t then s :: t :: ts else t :: insertSorted s ts

/-- The model of `sort.Strings`. -/
def sortStrings (l : List String) : List String := l.foldr insertSorted []

/-- Adjacent-pairs sortedness check. -/
def sortedStr : List String → Bool
  | [] => true
  | [_] => true
  | a :: b :: rest => strLe a b && sortedStr (b :: rest)

theorem strListLe_total (a b : List Char) :
    strListLe a b = true ∨ strListLe b a = true := by
  induction a generalizing b with
  | nil => left; rfl
  | cons x xs ih =>
      cases b with
      | nil => right; rfl
      | cons y ys =>
          rcases Nat.lt_trichotomy x.toNat y.toNat with h | h | h
          · left; simp [strListLe, h]
          · have hyx : ¬ y.toNat < x.toNat := by omega
            have hxy : ¬ x.toNat < y.toNat := by omega
            rcases ih ys with h' | h'
            · left; simp [strListLe, hxy, hyx, h']
            · right; simp [strListLe, hxy, hyx, h']
          · right; simp [strListLe, h]

theorem strLe_total (s t : String) : strLe s t = true ∨ strLe t s = true :=
  strListLe_total s.toList t.toList

theorem perm_insertSorted (s : String) (l : List String) :
    List.Perm (insertSorted s l) (s :: l) := by
  induction l with
  | nil => simp [insertSorted]
  | cons t ts ih =>
      by_cases h : strLe s t = true
      · simp [insertSorted, h]
      · rw [insertSorted, if_neg h]
        exact (List.Perm.cons t ih).trans (List.Perm.swap s t ts)

theorem perm_sortStrings (l : List String) : List.Perm (sortStrings l) l := by
  induction l with
  | nil => simp [sortStrings]
  | cons a l ih =>
      have : sortStrings (a :: l) = insertSorted a (sortStrings l) := rfl
      rw [this]
      exact (perm_insertSorted a (sortStrings l)).trans (List.Perm.cons a ih)

theorem sortedStr_insertSorted_cons (l : List String) (t s : String)
    (hs : sortedStr (t :: l) = true) (hts : strLe t s = true) :
    sortedStr (t :: insertSorted s l) = true := by
  induction l generalizing t with
  | nil => simp [insertSorted, sortedStr, hts]
  | cons u us ih =>
      have htu : strLe t u = true := by
        simp [sortedStr] at hs; exact hs.1
      have hus : sortedStr (u :: us) = true := by
        simp [sortedStr] at hs; exact hs.2
      by_cases h : strLe s u = true
      · simp [insertSorted, h, sortedStr, hts, htu, hus]
      · have hus' : strLe u s = true := by
          rcases strLe_total s u with h' | h'
          · exact absurd h' h
          · exact h'
        have := ih u hus hus'
        simp only [insertSorted, h, if_neg, Bool.not_eq_true]
        simp [sortedStr, htu]
        simpa [sortedStr] using this

theorem sortedStr_insertSorted (s : String) (l : List String)
    (hl : sortedStr l = true) : sortedStr (insertSorted s l) = true := by
  cases l with
  | nil => simp [insertSorted, sortedStr]
  | cons t ts =>
      by_cases h : strLe s t = true
      · simp [insertSorted, h, sortedStr, hl]
      · have hts : strLe t s = true := by
          rcases strLe_total s t with h' | h'
          · exact absurd h' h
          · exact h'
        simp only [insertSorted, h, if_neg, Bool.not_eq_true]
        exact sortedStr_insertSorted_cons ts t s hl hts

theorem sortedStr_sortStrings (l : List String) :
    sortedStr (sortStrings l) = true := by
  induction l with
  | nil => rfl
  | cons a l ih => exact sortedStr_insertSorted a (sortStrings l) ih

/-! ## `FormatArgs` -/

/-- `strings.Join(v, ",")`. -/
def joinComma : List String → String
  | [] => ""
  | [v] => v
  | v :: rest => v ++ "," ++ joinComma rest

/-- The token `FormatArgs` emits for one stored flag: `--name` for a nil
value list, `--name=v1,v2,...` otherwise (a non-nil empty list yields
`--name=`). -/
def emitToken (k : String) (v : FlagValues) : String :=
  "--" ++ k ++ (match v with
    | none => ""
    | some vs => "=" ++ joinComma vs)

/-- One iteration of the `FormatArgs` loop on the entry `e = (k, v)`: the
positional-arguments flag and the internal `rod-` flags are skipped; the
first value of the user-data-dir flag is rewritten to its absolute form
before its token is built (the source indexes `v[0]`, a panic — modelled
`none` — when that flag's slice is nil or empty); every non-skipped flag
yields its token.  Returns the emitted token, if any, and the entry as it
is left in the map (the source mutates the user-data-dir slice in place,
so the store keeps the rewritten value).  `absf` stands for
`filepath.Abs`. -/
def formatEntry (absf : String → String) (e : String × FlagValues) :
    Option (Option String × (String × FlagValues)) :=
  if e.1 = argumentsFlag then some (none, e)
  else if isRodFlag e.1 then some (none, e)
  else if e.1 = userDataDirFlag then
    match e.2 with
    | some (x :: xs) =>
        some (some (emitToken e.1 (some (absf x :: xs))), (e.1, some (absf x :: xs)))
    | _ => none
  else some (some (emitToken e.1 e.2), e)

/-- The `for k, v := range l.Flags` loop of `FormatArgs`, collecting the
emitted tokens and the store as left behind. -/
def formatLoop (absf : String → String) : Flags → Option (List String × Flags)
  | [] => some ([], [])
  | e :: rest =>
      match formatEntry absf e, formatLoop absf rest with
      | some (tok, e'), some (toks, rest') => some (tok.toList ++ toks, e' :: rest')
      | _, _ => none

/-- `Launcher.FormatArgs`: run the loop, append the positional-argument
values (`l.Flags[flags.Arguments]`, nothing when the flag is absent or its
slice nil), then `sort.Strings` the whole accumulated list.  Returns the
final argument list together with the flag store as `FormatArgs` leaves
it. -/
def FormatArgs (absf : String → String) (fl : Flags) :
    Option (List String × Flags) :=
  match formatLoop absf fl with
  | some (toks, fl') =>
      let positional : List String :=
        match lookupFlag fl' argumentsFlag with
        | some (some vs) => vs
        | _ => []
      some (sortStrings (toks ++ positional), fl')
  | none => none

/-- The positional-argument values read back out of a store. -/
def positionalValues (fl : Flags) : List String :=
  match lookupFlag fl argumentsFlag with
  | some (some vs) => vs
  | _ => []

/-- The token multiset of a store, stated entry-wise: every flag that is
neither the positional-arguments flag nor an internal `rod-` flag
contributes exactly its `emitToken`. -/
def emittedTokens (fl : Flags) : List String :=
  fl.filterMap (fun e =>
    if e.1 = argumentsFlag then none
    else if isRodFlag e.1 then none
    else some (emitToken e.1 e.2))

theorem formatEntry_token (absf : String → String) (e : String × FlagValues)
    (tok : Option String) (e' : String × FlagValues)
    (h : formatEntry absf e = some (tok, e')) :
    e'.1 = e.1 ∧
      tok = (if e.1 = argumentsFlag then none
             else if isRodFlag e.1 then none
             else some (emitToken e'.1 e'.2)) := by
  obtain ⟨k, v⟩ := e
  unfold formatEntry at h
  split_ifs at h with h1 h2 h3
  · have h1' : k = argumentsFlag := h1
    simp only [Option.some.injEq, Prod.mk.injEq] at h
    obtain ⟨h4, h5⟩ := h
    subst h4; subst h5
    simp [h1']
  · have h1' : ¬ k = argumentsFlag := h1
    have h2' : isRodFlag k = true := h2
    simp only [Option.some.injEq, Prod.mk.injEq] at h
    obtain ⟨h4, h5⟩ := h
    subst h4; subst h5
    simp [h1', h2']
  · have h1' : ¬ k = argumentsFlag := h1
    have h2' : ¬ isRodFlag k = true := h2
    cases v with
    | none => simp at h
    | some l =>
        cases l with
        | nil => simp at h
        | cons x xs =>
            simp only [Option.some.injEq, Prod.mk.injEq] at h
            obtain ⟨h4, h5⟩ := h
            subst h4; subst h5
            simp [h1', h2']
  · have h1' : ¬ k = argumentsFlag := h1
    have h2' : ¬ isRodFlag k = true := h2
    simp only [Option.some.injEq, Prod.mk.injEq] at h
    obtain ⟨h4, h5⟩ := h
    subst h4; subst h5
    simp [h1', h2']

theorem formatLoop_tokens (absf : String → String) (fl : Flags)
    (toks : List String) (fl' : Flags)
    (h : formatLoop absf fl = some (toks, fl')) :
    toks = emittedTokens fl' := by
  induction fl generalizing toks fl' with
  | nil =>
      simp [formatLoop] at h
      obtain ⟨h1, h2⟩ := h
      subst h1; subst h2
      rfl
  | cons e rest ih =>
      unfold formatLoop at h
      match he : formatEntry absf e, hr : formatLoop absf rest with
      | some (tok, e'), some (toks0, rest') =>
          rw [he, hr] at h
          simp at h
          obtain ⟨h1, h2⟩ := h
          subst h2
          obtain ⟨hk, ht⟩ := formatEntry_token absf e tok e' he
          subst h1
          rw [ih toks0 rest' hr]
          simp only [emittedTokens, List.filterMap_cons]
          rw [ht, hk]
          by_cases h1 : e.1 = argumentsFlag
      <;> by_cases h2 : isRodFlag e.1 <;> simp [h1, h2]
      | some (tok, e'), none => rw [he, hr] at h; simp at h
      | none, _ => rw [he] at h; simp at h

theorem formatEntry_frame (absf : String → String) (e : String × FlagValues)
    (tok : Option String) (e' : String × FlagValues)
    (h : formatEntry absf e = some (tok, e')) :
    e'.1 = e.1 ∧
      (e.1 ≠ userDataDirFlag → e' = e) ∧
      (∀ x xs, e.1 = userDataDirFlag → e.2 = some (x :: xs) →
        e' = (e.1, some (absf x :: xs))) := by
  obtain ⟨k, v⟩ := e
  unfold formatEntry at h
  split_ifs at h with h1 h2 h3
  · have h1' : k = argumentsFlag := h1
    simp only [Option.some.injEq, Prod.mk.injEq] at h
    obtain ⟨h4, h5⟩ := h
    subst h5
    have : ¬ k = userDataDirFlag := by rw [h1']; decide
    simp [this]
  · have h2' : isRodFlag k = true := h2
    simp only [Option.some.injEq, Prod.mk.injEq] at h
    obtain ⟨h4, h5⟩ := h
    subst h5
    have : ¬ k = userDataDirFlag := by
      intro hk
      rw [hk] at h2'
      exact absurd h2' (by decide)
    simp [this]
  · have h3' : k = userDataDirFlag := h3
    cases v with
    | none => simp at h
    | some l =>
        cases l with
        | nil => simp at h
        | cons x xs =>
            simp only [Option.some.injEq, Prod.mk.injEq] at h
            obtain ⟨h4, h5⟩ := h
            subst h5
            simp [h3']
  · have h3' : ¬ k = userDataDirFlag := h3
    simp only [Option.some.injEq, Prod.mk.injEq] at h
    obtain ⟨h4, h5⟩ := h
    subst h5
    simp [h3']

theorem formatLoop_lookup (absf : String → String) (fl : Flags)
    (toks : List String) (fl' : Flags)
    (h : formatLoop absf fl = some (toks, fl')) :
    (∀ k, k ≠ userDataDirFlag → lookupFlag fl' k = lookupFlag fl k) ∧
      (∀ x xs, lookupFlag fl userDataDirFlag = some (some (x :: xs)) →
        lookupFlag fl' userDataDirFlag = some (some (absf x :: xs))) := by
  induction fl generalizing toks fl' with
  | nil =>
      simp [formatLoop] at h
      obtain ⟨h1, h2⟩ := h
      subst h2
      simp
  | cons e rest ih =>
      obtain ⟨k1, v1⟩ := e
      unfold formatLoop at h
      match he : formatEntry absf (k1, v1), hr : formatLoop absf rest with
      | some (tok, e'), some (toks0, rest') =>
          rw [he, hr] at h
          simp at h
          obtain ⟨h1, h2⟩ := h
          subst h2
          obtain ⟨hk, hframe, hudd⟩ := formatEntry_frame absf (k1, v1) tok e' he
          obtain ⟨k2, v2⟩ := e'
          have hk' : k2 = k1 := hk
          subst k2
          obtain ⟨ih1, ih2⟩ := ih toks0 rest' hr
          constructor
          · intro k hkne
            simp only [lookupFlag_cons]
            by_cases hek : k1 = k
            · have hne : k1 ≠ userDataDirFlag := fun hc => hkne (hek ▸ hc)
              have hv : v2 = v1 := congrArg Prod.snd (hframe hne)
              rw [if_pos hek, if_pos hek, hv]
            · rw [if_neg hek, if_neg hek]
              exact ih1 k hkne
          · intro x xs hfind
            simp only [lookupFlag_cons] at hfind ⊢
            by_cases hek : k1 = userDataDirFlag
            · rw [if_pos hek] at hfind
              have hv1 : v1 = some (x :: xs) := Option.some.inj hfind
              have hv2 : v2 = some (absf x :: xs) :=
                congrArg Prod.snd (hudd x xs hek hv1)
              rw [if_pos hek, hv2]
            · rw [if_neg hek] at hfind
              rw [if_neg hek]
              exact ih2 x xs hfind
      | some (tok, e'), none => rw [he, hr] at h; simp at h
      | none, _ => rw [he] at h; simp at h

/-! ## Claim C1: what `FormatArgs` emits, and what gets sorted -/

/-- **C1, counterexample.**  The claim states that the values of the
positional-arguments flag are appended after the sorted flag block in
their original order (the positional block unsorted).  On the store
`{a: [1,2], b: nil, <positional>: [z,y]}` the source sorts the *entire*
argument list after appending the positional values (`sort.Strings` runs
last in `FormatArgs`), so the positional values come out as `y, z`, not in
their original order `z, y`. -/
theorem formatArgs_positional_sorted_cex :
    FormatArgs id [("a", some ["1", "2"]), ("b", none), ("", some ["z", "y"])]
      = some (["--a=1,2", "--b", "y", "z"],
          [("a", some ["1", "2"]), ("b", none), ("", some ["z", "y"])]) ∧
      ["--a=1,2", "--b", "y", "z"] ≠ ["--a=1,2", "--b"] ++ ["z", "y"] := by
  constructor
  · rfl
  · decide

/-- **C1, amended.**  For every flag store on which `FormatArgs` does not
panic, the result lists, for each stored flag that is neither the
positional-arguments flag nor an internal `rod-`-prefixed flag, the token
`--name` (nil value list) or `--name=v1,v2,...` (otherwise), together with
the values of the positional-arguments flag — and the *entire* list,
positional values included, is sorted lexicographically, so the positional
values' original order is not preserved. -/
theorem formatArgs_emits_sorted_whole (absf : String → String) (fl : Flags)
    (args : List String) (fl' : Flags)
    (h : FormatArgs absf fl = some (args, fl')) :
    sortedStr args = true ∧
      List.Perm args (emittedTokens fl' ++ positionalValues fl') := by
  unfold FormatArgs at h
  match hl : formatLoop absf fl with
  | some (toks, fl'') =>
      rw [hl] at h
      simp only [Option.some.injEq, Prod.mk.injEq] at h
      obtain ⟨h1, h2⟩ := h
      subst h2
      have htoks : toks = emittedTokens fl'' := formatLoop_tokens absf fl toks fl'' hl
      constructor
      · rw [← h1]
        exact sortedStr_sortStrings _
      · rw [← h1, ← htoks]
        exact perm_sortStrings (toks ++ positionalValues fl'')
  | none => rw [hl] at h; simp at h

/-- Witness for the amended C1 theorem at a concrete store. -/
theorem formatArgs_emits_sorted_whole_witness :
    sortedStr ["--a=1,2", "--b", "y", "z"] = true ∧
      List.Perm ["--a=1,2", "--b", "y", "z"]
        (emittedTokens [("a", some ["1", "2"]), ("b", none), ("", some ["z", "y"])] ++
          positionalValues [("a", some ["1", "2"]), ("b", none), ("", some ["z", "y"])]) :=
  formatArgs_emits_sorted_whole id
    [("a", some ["1", "2"]), ("b", none), ("", some ["z", "y"])]
    ["--a=1,2", "--b", "y", "z"]
    [("a", some ["1", "2"]), ("b", none), ("", some ["z", "y"])] rfl

/-! ## Claim C3: `Get` on a value-less flag -/

/-- **C3, code bug.**  `Get` is claimed to return the first value of a
present flag and never fail, even for a flag stored value-less (nil value
list).  The source reads `list[0]` whenever the flag is present, without a
length check, so a present nil-list flag — e.g. the `headless` flag as
`Set` with no values, exactly how `New()` stores its defaults — panics
with an index-out-of-range instead of returning a string (the panic is the
`none` below; the claim expects `some ""` at worst). -/
theorem get_panics_on_valueless_flag :
    Get (Set [] "headless" none) "headless" = none := by decide

/-! ## Claim C7: normalization makes all operations share one entry -/

/-- **C7.**  All flag-store operations address the key
`name.NormalizeFlag()`, so any two spellings with the same normalization
address the same single map entry, and repeated `Set`s on equivalent
spellings collapse to exactly one stored flag. -/
theorem flag_ops_respect_normalization (n1 n2 : String)
    (h : NormalizeFlag n1 = NormalizeFlag n2)
    (fl : Flags) (v v' : FlagValues) (vs : List String) :
    GetFlags fl n1 = GetFlags fl n2 ∧
      Get fl n1 = Get fl n2 ∧
      Has fl n1 = Has fl n2 ∧
      Set fl n1 v = Set fl n2 v ∧
      Append fl n1 vs = Append fl n2 vs ∧
      Delete fl n1 = Delete fl n2 ∧
      GetFlags (Set fl n1 v) n2 = some v ∧
      countKey (Set (Set fl n1 v) n2 v') (NormalizeFlag n1) = 1 ∧
      GetFlags (Set (Set fl n1 v) n2 v') n1 = some v' := by
  refine ⟨?_, ?_, ?_, ?_, ?_, ?_, ?_, ?_, ?_⟩
  · unfold GetFlags; rw [h]
  · unfold Get GetFlags; rw [h]
  · unfold Has GetFlags; rw [h]
  · unfold Set; rw [h]
  · unfold Append GetFlags Set; rw [h]
  · unfold Delete; rw [h]
  · unfold GetFlags; rw [← h]; exact lookupFlag_Set_self fl n1 v
  · rw [h]; exact countKey_Set_self (Set fl n1 v) n2 v'
  · unfold GetFlags; rw [h]; exact lookupFlag_Set_self (Set fl n1 v) n2 v'

/-- Witness for C7: the spellings `--Headless` and `headless` normalize
alike, and two `Set`s through them leave exactly one stored entry. -/
theorem flag_ops_respect_normalization_witness :
    countKey (Set (Set [("user-data-dir", some ["d"])] "--Headless" none)
        "headless" (some ["new"])) (NormalizeFlag "--Headless") = 1 :=
  (flag_ops_respect_normalization "--Headless" "headless" (by decide)
    [("user-data-dir", some ["d"])] none (some ["new"]) []).2.2.2.2.2.2.2.1

/-! ## Claim C10: `FormatArgs` is not a pure read -/

/-- **C10.**  `FormatArgs` rewrites the stored first value of the
user-data-dir flag in place to its absolute form (`absf`), leaves every
other flag entry unchanged, and is therefore not a pure read of the store:
on the concrete store `{user-data-dir: [data]}` the store left behind
differs from the input. -/
theorem formatArgs_rewrites_userDataDir (absf : String → String) (fl : Flags)
    (args : List String) (fl' : Flags)
    (h : FormatArgs absf fl = some (args, fl')) :
    (∀ k, k ≠ userDataDirFlag → lookupFlag fl' k = lookupFlag fl k) ∧
      (∀ x xs, lookupFlag fl userDataDirFlag = some (some (x :: xs)) →
        lookupFlag fl' userDataDirFlag = some (some (absf x :: xs))) ∧
      (FormatArgs (fun s => "/abs/" ++ s) [("user-data-dir", some ["data"])]).map
          Prod.snd ≠ some [("user-data-dir", some ["data"])] := by
  unfold FormatArgs at h
  match hl : formatLoop absf fl with
  | some (toks, fl'') =>
      rw [hl] at h
      simp only [Option.some.injEq, Prod.mk.injEq] at h
      obtain ⟨h1, h2⟩ := h
      subst h2
      obtain ⟨hframe, hudd⟩ := formatLoop_lookup absf fl toks fl'' hl
      exact ⟨hframe, hudd, by decide⟩
  | none => rw [hl] at h; simp at h

/-- Witness for C10 at a concrete store: the user-data-dir value comes
back in rewritten form and an unrelated key reads unchanged. -/
theorem formatArgs_rewrites_userDataDir_witness :
    lookupFlag [("user-data-dir", some ["/abs/data"]), ("b", none)]
        userDataDirFlag = some (some ["/abs/data"]) ∧
      lookupFlag [("user-data-dir", some ["/abs/data"]), ("b", none)] "b"
        = lookupFlag [("user-data-dir", some ["data"]), ("b", none)] "b" := by
  have h := formatArgs_rewrites_userDataDir (fun s => "/abs/" ++ s)
    [("user-data-dir", some ["data"]), ("b", none)]
    ["--b", "--user-data-dir=/abs/data"]
    [("user-data-dir", some ["/abs/data"]), ("b", none)] rfl
  exact ⟨h.2.1 "data" [] (by decide), h.1 "b" (by decide)⟩

/-! ## Claim C2: the one-shot launch latch

`Launcher.isLaunched` is an `int32`, zero meaning "not launched".  Every
`Launch` call runs `hasLaunched`, a single atomic compare-and-swap, before
doing anything else.  Concurrent calls therefore serialize at the CAS, so
an arbitrary interleaving of `n` calls is exactly some order of `n` CAS
operations on the latch — the trace `launchAttempts` below. -/

/-- `atomic.CompareAndSwapInt32(&l.isLaunched, 0, 1)`: whether the swap
happened, and the latch value it leaves behind. -/
def casIsLaunched (v : Nat) : Bool × Nat :=
  if v = 0 then (true, 1) else (false, v)

/-- `Launcher.hasLaunched`: the negation of the CAS success. -/
def hasLaunched (v : Nat) : Bool × Nat :=
  (!(casIsLaunched v).1, (casIsLaunched v).2)

/-- Whether one `Launch` call gets past the latch guard. -/
inductive LaunchGateResult
  | proceeds
  | alreadyLaunchedErr
deriving DecidableEq

/-- The guard at the top of `Launch`: observing `hasLaunched` returns
`ErrAlreadyLaunched` immediately — before the context, the binary
resolution or the command are touched; otherwise the call proceeds into
the body of `Launch`. -/
def launchGate (v : Nat) : LaunchGateResult × Nat :=
  (if (hasLaunched v).1 then .alreadyLaunchedErr else .proceeds, (hasLaunched v).2)

/-- The outcomes of `n` serialized `Launch` calls starting from latch
value `v`. -/
def launchAttempts : Nat → Nat → List LaunchGateResult
  | _, 0 => []
  | v, n + 1 => (launchGate v).1 :: launchAttempts (launchGate v).2 n

theorem launchGate_nonzero (v : Nat) (hv : v ≠ 0) :
    launchGate v = (.alreadyLaunchedErr, v) := by
  simp [launchGate, hasLaunched, casIsLaunched, hv]

theorem launchAttempts_one (n : Nat) :
    launchAttempts 1 n = List.replicate n .alreadyLaunchedErr := by
  induction n with
  | zero => rfl
  | succ n ih =>
      rw [launchAttempts, launchGate_nonzero 1 (by decide)]
      rw [List.replicate_succ, ih]

/-- **C2.**  On a fresh `Launcher` (latch zero) only the first of any
number of serialized `Launch` calls — concurrent calls serialize at the
atomic CAS — proceeds; each of the remaining `n` returns the distinct
already-launched error, and a call hitting a used latch leaves the latch
(and hence the `Launcher`) unchanged, returning before any other side
effect. -/
theorem launch_exactly_once (n v : Nat) (hv : v ≠ 0) :
    launchAttempts 0 (n + 1) =
        LaunchGateResult.proceeds ::
          List.replicate n LaunchGateResult.alreadyLaunchedErr ∧
      launchGate v = (LaunchGateResult.alreadyLaunchedErr, v) := by
  constructor
  · rw [launchAttempts]
    have h0 : launchGate 0 = (.proceeds, 1) := by
      simp [launchGate, hasLaunched, casIsLaunched]
    rw [h0]
    simp [launchAttempts_one]
  · exact launchGate_nonzero v hv

/-- Witness for C2: three calls, one success then two errors; a latch at 1
is left at 1. -/
theorem launch_exactly_once_witness :
    launchAttempts 0 (2 + 1) =
        LaunchGateResult.proceeds ::
          List.replicate 2 LaunchGateResult.alreadyLaunchedErr ∧
      launchGate 1 = (LaunchGateResult.alreadyLaunchedErr, 1) :=
  launch_exactly_once 2 1 (by decide)

/-! ## Claim C4: `Kill` without a process -/

/-- A kill signal sent by `Launcher.Kill`. -/
inductive KillSignal
  | group (pid : Nat)
  | single (pid : Nat)
deriving DecidableEq

/-- The process id a kill signal is aimed at. -/
def KillSignal.target : KillSignal → Nat
  | .group p => p
  | .single p => p

/-- `Launcher.Kill`: after the grace sleep, return at once when the
tracked pid is zero — no process was ever started; the source comments
the guard with "avoid killing the current process".  Otherwise
`killGroup` the pid's process group, then kill the pid itself
(`os.FindProcess` is modelled as succeeding, as it always does on
POSIX).  The result is the list of kill signals sent, in order. -/
def Kill (pid : Nat) : List KillSignal :=
  if pid = 0 then [] else [.group pid, .single pid]

/-- **C4.**  `Kill` on a launcher whose tracked pid is zero sends no kill
signal at all; with a started process it kills the process group of the
tracked pid and then the pid itself, and every signal it ever sends
targets the tracked pid — never the supervisor's own process. -/
theorem kill_noop_without_process (pid : Nat) (hp : pid ≠ 0) :
    Kill 0 = [] ∧
      Kill pid = [KillSignal.group pid, KillSignal.single pid] ∧
      ∀ s ∈ Kill pid, s.target = pid := by
  refine ⟨rfl, by simp [Kill, hp], ?_⟩
  intro s hs
  simp [Kill, hp] at hs
  rcases hs with h | h <;> simp [h, KillSignal.target]

/-- Witness for C4 at pid 42. -/
theorem kill_noop_without_process_witness :
    Kill 0 = [] ∧
      Kill 42 = [KillSignal.group 42, KillSignal.single 42] ∧
      ∀ s ∈ Kill 42, s.target = 42 :=
  kill_noop_without_process 42 (by decide)

/-! ## Claims C5 and C9: the URL resolution race and its failure path -/

/-- The three channels `Launcher.getURL` selects over; the constructor is
whichever signal fires first. -/
inductive URLSignal
  | ctxDone
  | parsedURL (u : String)
  | exited
deriving DecidableEq

/-- `Launcher.getURL`: the `select` over lifetime-context cancellation
(`ctxErr` is `l.ctx.Err()`), the parser's single-value URL channel, and
the process-exit channel (`parserErr` is the terminal error
`l.parser.Err()` captured from the output). -/
def getURL (sig : URLSignal) (ctxErr parserErr : String) :
    Except String String :=
  match sig with
  | .ctxDone => .error ctxErr
  | .parsedURL u => .ok u
  | .exited => .error parserErr

/-- Whether `pat` occurs as a contiguous run inside `s`. -/
def containsSeq (pat : List Char) : List Char → Bool
  | [] => pat.isEmpty
  | c :: rest => List.isPrefixOf pat (c :: rest) || containsSeq pat rest

/-- `strings.Contains(u, "://")`: whether a resolver result is already a
full URL rather than a bare port. -/
def hasScheme (u : String) : Bool :=
  containsSeq "://".toList u.toList

/-- Modelled from the spec: `ResolveURL` (not under the sources).  A full
URL is already canonical and returned as is; a bare port is normalized by
probing the well-known HTTP metadata endpoint on that port (`probe`),
which yields the canonical browser-wide WebSocket URL, or fails — a
distinct, reportable error — when nothing is listening there. -/
def ResolveURL (probe : String → Option String) (u : String) :
    Except String String :=
  if hasScheme u then .ok u
  else
    match probe u with
    | some ws => .ok ws
    | none => .error "no process is listening"

/-- The tail of `Launch` after the process is spawned and `pid` is
tracked: wait in `getURL`; on error, `Kill` the spawned process and
return the error; on success, return `ResolveURL` of the delivered
value.  The first component is the list of kill signals sent on the way
out. -/
def launchFinish (pid : Nat) (sig : URLSignal) (ctxErr parserErr : String)
    (probe : String → Option String) :
    List KillSignal × Except String String :=
  match getURL sig ctxErr parserErr with
  | .error e => (Kill pid, .error e)
  | .ok u => ([], ResolveURL probe u)

/-- **C5.**  While `Launch` waits for the debug URL it returns by
whichever signal fires first: context cancellation fails the launch with
the context's error, a parsed (full) URL succeeds with exactly that URL,
and process exit fails with the terminal error the parser captured. -/
theorem launch_url_race (pid : Nat) (ctxErr parserErr u : String)
    (probe : String → Option String) (hu : hasScheme u = true) :
    (launchFinish pid .ctxDone ctxErr parserErr probe).2 = .error ctxErr ∧
      (launchFinish pid (.parsedURL u) ctxErr parserErr probe).2 = .ok u ∧
      (launchFinish pid .exited ctxErr parserErr probe).2 = .error parserErr := by
  refine ⟨rfl, ?_, rfl⟩
  simp [launchFinish, getURL, ResolveURL, hu]

/-- Witness for C5 with a full WebSocket URL. -/
theorem launch_url_race_witness :
    (launchFinish 7 .ctxDone "context canceled" "browser exited"
        (fun _ => none)).2 = .error "context canceled" ∧
      (launchFinish 7 (.parsedURL "ws://127.0.0.1:9222/devtools/browser/x")
          "context canceled" "browser exited" (fun _ => none)).2 =
        .ok "ws://127.0.0.1:9222/devtools/browser/x" ∧
      (launchFinish 7 .exited "context canceled" "browser exited"
          (fun _ => none)).2 = .error "browser exited" :=
  launch_url_race 7 "context canceled" "browser exited"
    "ws://127.0.0.1:9222/devtools/browser/x" (fun _ => none) (by decide)

/-- **C9.**  Whenever `getURL` fails — cancellation, process exit, parser
error — `Launch` sends the kill signals for the spawned (nonzero) pid
before returning that failure, so an unsuccessful `Launch` does not leave
the spawned process running. -/
theorem launch_failure_kills_process (pid : Nat) (sig : URLSignal)
    (ctxErr parserErr e : String) (probe : String → Option String)
    (hp : pid ≠ 0) (he : getURL sig ctxErr parserErr = .error e) :
    launchFinish pid sig ctxErr parserErr probe = (Kill pid, .error e) ∧
      Kill pid ≠ [] := by
  constructor
  · unfold launchFinish
    rw [he]
  · simp [Kill, hp]

/-- Witness for C9: process exit before readiness kills pid 7. -/
theorem launch_failure_kills_process_witness :
    launchFinish 7 .exited "context canceled" "browser exited"
        (fun _ => none) = (Kill 7, .error "browser exited") ∧
      Kill 7 ≠ [] :=
  launch_failure_kills_process 7 .exited "context canceled" "browser exited"
    "browser exited" (fun _ => none) (by decide) rfl

/-! ## Claim C6: the reconnect-first branch of `Launch` -/

/-- A reconnect failure, in the two kinds the spec distinguishes: nothing
listening on the configured port, or any other transport-level connect
error. -/
inductive ResolveErr
  | noListener
  | transport (msg : String)
deriving DecidableEq

/-- What `Launch` decides to run. -/
inductive SpawnChoice
  | leaklessSpawn
  | reconnected (u : String)
  | freshSpawn
deriving DecidableEq

/-- The spawn decision of `Launch`: with the leakless flag set and the
platform supporting it, spawn through the leakless watchdog; otherwise
first try `ResolveURL` on the configured debug port (`reconnect` is that
attempt's outcome) — on success return the already-running browser's URL
without spawning, and on error fall through to a fresh direct spawn.  The
source tests only `err == nil` on the reconnect attempt. -/
def launchSpawnChoice (leaklessOn leaklessSupported : Bool)
    (reconnect : Except ResolveErr String) : SpawnChoice :=
  if leaklessOn && leaklessSupported then .leaklessSpawn
  else
    match reconnect with
    | .ok u => .reconnected u
    | .error _ => .freshSpawn

/-- **C6, counterexample.**  The claim says the launcher distinguishes
"no process is listening on the port" (go-ahead to spawn) from other
transport-level connect errors.  It does not: the source checks only
`err == nil`, so a transport error other than no-listener leads to the
very same fresh spawn instead of being surfaced. -/
theorem launch_reconnect_no_distinction_cex :
    launchSpawnChoice false false (.error ResolveErr.noListener) =
        SpawnChoice.freshSpawn ∧
      launchSpawnChoice false false
          (.error (ResolveErr.transport "connection reset")) =
        SpawnChoice.freshSpawn :=
  ⟨rfl, rfl⟩

/-- **C6, amended.**  When leak-prevention is disabled or unsupported,
`Launch` skips spawning entirely and first attempts to reconnect to an
already-running process on the configured debug port, returning its URL
on success; every reconnect failure, whether no process is listening or
any other transport-level connect error, is treated alike as the
go-ahead to spawn a fresh process. -/
theorem launch_reconnect_then_fresh (lon sup : Bool) (u : String)
    (e : ResolveErr) :
    launchSpawnChoice false sup (.ok u) = SpawnChoice.reconnected u ∧
      launchSpawnChoice lon false (.ok u) = SpawnChoice.reconnected u ∧
      launchSpawnChoice false sup (.error e) = SpawnChoice.freshSpawn ∧
      launchSpawnChoice lon false (.error e) = SpawnChoice.freshSpawn := by
  refine ⟨?_, ?_, ?_, ?_⟩ <;> simp [launchSpawnChoice]

/-! ## Claim C8: `Connect` is one-shot per transport instance -/

/-- Modelled from the spec: the Transport (`cdp.WebSocket`, not under the
sources; the in-repo test `TestDuplicatedConnectErr` exercises exactly
this contract).  A transport instance records whether `Connect` has
already been called on it. -/
structure WebSocket where
  used : Bool
deriving DecidableEq

/-- A fresh transport instance, `&cdp.WebSocket{}`. -/
def WebSocket.new : WebSocket := { used := false }

/-- The outcome of one `Connect` call. -/
inductive ConnectResult
  | connected
  | handshakeFailed (status : String)
  | duplicatePanic
deriving DecidableEq

/-- Modelled from the spec: `WebSocket.Connect`.  A second call on the
same instance is a programmer error and panics; the first call performs
the handshake (`hs` its outcome — success, or failure surfacing the HTTP
status) and marks the instance used whatever that outcome. -/
def WebSocket.connect (ws : WebSocket) (hs : Except String Unit) :
    ConnectResult × WebSocket :=
  if ws.used then (.duplicatePanic, ws)
  else
    match hs with
    | .ok _ => (.connected, { used := true })
    | .error status => (.handshakeFailed status, { used := true })

/-- **C8.**  Whatever the outcome of the first `Connect` call on a fresh
transport — success or handshake failure — a second `Connect` on the same
instance fails loudly as a programmer error (the panic), does not touch
the connection state, and the first call itself is never that error. -/
theorem connect_is_one_shot (hs1 hs2 : Except String Unit) :
    ((WebSocket.new.connect hs1).2.connect hs2).1 =
        ConnectResult.duplicatePanic ∧
      ((WebSocket.new.connect hs1).2.connect hs2).2 =
        (WebSocket.new.connect hs1).2 ∧
      (WebSocket.new.connect hs1).1 ≠ ConnectResult.duplicatePanic := by
  cases hs1 <;> exact ⟨rfl, rfl, by simp [WebSocket.new, WebSocket.connect]⟩

end Grod
